import Mathlib

/-!
Verification of the core log-analysis engine of `log-analyzer-pro`.

The definitions below are a shallow embedding of the Rust sources under
`crates/log-analyzer/src`: the record model (`models/log_line.rs`), the filter
model and compiler (`models/filter.rs`), the three domain operations
(`domain/apply_filters.rs`, `domain/apply_format.rs`, `domain/apply_search.rs`),
the styled-record round trip (`models/log_line_styled.rs`) and the three stores
(`stores/log_store.rs`, `stores/analysis_store.rs`, plus the synchronous part of
`services/log_service.rs`).

Regular expressions from the external `regex` crate are embedded at two levels:
* operations that only consume a compiled regex through `is_match` are
  parameterised by an abstract matcher `String → Bool`;
* where a concrete compiled pattern is needed, literal (metacharacter-free)
  patterns are modelled by substring containment, which is exactly the
  `regex` crate's `is_match` semantics for such patterns; in particular the
  empty pattern compiles and matches every string.

Rust `panic!`/`unwrap` failures are modelled by `Option`-valued results
(`none` = panic).  Strings are treated as their character lists; all concrete
inputs used below are ASCII, where Rust byte offsets coincide with character
offsets.
-/

namespace LAP

/-- The eight field names returned by `LogLine::columns()` in
`models/log_line.rs`.  Filter keys produced by `Filter::get_filters` range over
the seven keys of `LogLine::values()` (everything but `index`), so field lookup
by such a key is total. -/
inductive FieldKey where
  | log
  | index
  | date
  | timestamp
  | app
  | severity
  | function
  | payload
deriving DecidableEq

/-- `LogLine` from `models/log_line.rs`: eight textual fields plus an optional
24-bit colour `(r, g, b)`. -/
structure LogLine where
  log : String
  index : String
  date : String
  timestamp : String
  app : String
  severity : String
  function : String
  payload : String
  color : Option (Nat × Nat × Nat)
deriving DecidableEq

/-- `LogLine::get` restricted to the valid keys (the source returns
`Option<&String>` and is only ever called with keys coming from `columns()` /
`values()`, where it is `Some`). -/
def LogLine.get (l : LogLine) : FieldKey → String
  | .log => l.log
  | .index => l.index
  | .date => l.date
  | .timestamp => l.timestamp
  | .app => l.app
  | .severity => l.severity
  | .function => l.function
  | .payload => l.payload

/-- `LogLine::columns()`: the fixed field order. -/
def LogLine.columns : List FieldKey :=
  [.log, .index, .date, .timestamp, .app, .severity, .function, .payload]

/-- `LogLine::values()`: seven `(key, field)` pairs — `index` is omitted in the
source. -/
def LogLine.values (l : LogLine) : List (FieldKey × String) :=
  [(.log, l.log), (.date, l.date), (.timestamp, l.timestamp), (.app, l.app),
   (.severity, l.severity), (.function, l.function), (.payload, l.payload)]

/-- `IntoIterator for &LogLine`: seven fields in declaration order, `index`
omitted (see `models/log_line.rs`). -/
def LogLine.iterFields (l : LogLine) : List String :=
  [l.log, l.date, l.timestamp, l.app, l.severity, l.function, l.payload]

/-- Does `pat` occur at the head of `s`? (helper for the literal-pattern regex
model). -/
def listStarts : List Char → List Char → Bool
  | [], _ => true
  | _ :: _, [] => false
  | a :: as, b :: bs => a == b && listStarts as bs

/-- Does `pat` occur anywhere inside `s`? -/
def listHasSub (pat : List Char) : List Char → Bool
  | [] => pat.isEmpty
  | c :: rest => listStarts pat (c :: rest) || listHasSub pat rest

/-- Model of `Regex::is_match` for literal (metacharacter-free) patterns:
substring containment.  The empty pattern matches every string, as in the
`regex` crate. -/
def regexIsMatch (pat s : String) : Bool :=
  listHasSub pat.toList s.toList

/-- Model of `Regex::new` on the literal-pattern fragment: compilation of a
literal pattern always succeeds (in particular `Regex::new("")` is `Ok`). -/
def regexNew (pat : String) : Option (String → Bool) :=
  some (fun s => regexIsMatch pat s)

/-- `FilterAction` from `models/filter.rs` (declaration order `MARKER`,
`INCLUDE`, `EXCLUDE`; the default is `MARKER`). -/
inductive FilterAction where
  | MARKER
  | INCLUDE
  | EXCLUDE
deriving DecidableEq

/-- `LogFilter` from `models/filter.rs`: an action, the cached list of
`(field key, compiled regex)` pairs, and an optional colour.  The compiled
regex is embedded as its `is_match` function. -/
structure LogFilter where
  action : FilterAction
  filters : List (FieldKey × (String → Bool))
  color : Option (Nat × Nat × Nat)

/-- `Filter` from `models/filter.rs`: alias, action and a `LogLine` whose
fields hold the per-field pattern strings (its colour is the filter colour).
The source field `alias` is spelt `filterAlias` (`alias` is reserved here). -/
structure Filter where
  filterAlias : String
  action : FilterAction
  filter : LogLine

/-- `Filter::get_filters`: walk `values()` (seven fields, `index` omitted) and
keep every field whose pattern compiles.  There is no emptiness test in the
source, and on the modelled literal fragment `Regex::new` always succeeds, so
all seven fields are kept — including the ones with an empty pattern string. -/
def Filter.get_filters (f : Filter) : List (FieldKey × (String → Bool)) :=
  (f.filter.values).filterMap (fun kv =>
    match regexNew kv.2 with
    | some re => some (kv.1, re)
    | none => none)

/-- `impl From<Filter> for LogFilter`. -/
def LogFilter.ofFilter (f : Filter) : LogFilter :=
  ⟨f.action, f.get_filters, f.filter.color⟩

/-- The loop body of `filter_line` in `domain/apply_filters.rs`: `is_match`
starts `false`, is overwritten by each field test, and the loop breaks on the
first failing field.  An empty list therefore yields `false`. -/
def filter_line_loop (l : LogLine) : Bool → List (FieldKey × (String → Bool)) → Bool
  | is_match, [] => is_match
  | _, (key, re) :: rest =>
    let m := re (l.get key)
    if m then filter_line_loop l m rest else m

/-- Whether `filter_line` reports a match for this filter on this record. -/
def lineMatches (f : LogFilter) (l : LogLine) : Bool :=
  filter_line_loop l false f.filters

/-- `filter_line` from `domain/apply_filters.rs`: returns the match flag and
the (possibly colour-mutated) record.  On a match the record's colour is
overwritten by the filter's colour — unconditionally, even when that colour is
`none`. -/
def filter_line (f : LogFilter) (l : LogLine) : Bool × LogLine :=
  let is_match := lineMatches f l
  (is_match, if is_match then { l with color := f.color } else l)

/-- The marker loops of `apply_filters`: run `filter_line` for every marker in
iteration order, keeping the mutated record. -/
def markerPass (markers : List LogFilter) (l : LogLine) : LogLine :=
  markers.foldl (fun acc f => (filter_line f acc).2) l

/-- The INCLUDE loop of `apply_filters`: on the first matching include, apply
all markers to the mutated record and return it; otherwise thread the record
through.  Returns the loop result and the threaded record. -/
def runInclude (markers : List LogFilter) :
    List LogFilter → LogLine → Option LogLine × LogLine
  | [], l => (none, l)
  | f :: rest, l =>
    let p := filter_line f l
    if p.1 then (some (markerPass markers p.2), p.2) else runInclude markers rest p.2

/-- The EXCLUDE loop of `apply_filters`: stop with `true` on the first matching
exclude filter. -/
def runExclude : List LogFilter → LogLine → Bool × LogLine
  | [], l => (false, l)
  | f :: rest, l =>
    let p := filter_line f l
    if p.1 then (true, p.2) else runExclude rest p.2

/-- `apply_filters` from `domain/apply_filters.rs`: partition by action, try
includes, then excludes, then — only when there are no include filters at
all — the markers alone. -/
def apply_filters (filters : List LogFilter) (l : LogLine) : Option LogLine :=
  let include_filters := filters.filter (fun f => f.action == FilterAction.INCLUDE)
  let exclude_filters := filters.filter (fun f => f.action == FilterAction.EXCLUDE)
  let marker_filters := filters.filter (fun f => f.action == FilterAction.MARKER)
  match runInclude marker_filters include_filters l with
  | (some r, _) => some r
  | (none, l1) =>
    match runExclude exclude_filters l1 with
    | (true, _) => none
    | (false, l2) =>
      if include_filters.length = 0 then some (markerPass marker_filters l2)
      else none

/-- `apply_search` from `domain/apply_search.rs`: test the compiled search
pattern against the fields of the `&LogLine` iterator in reverse order
(payload first). -/
def apply_search (search : String → Bool) (l : LogLine) : Bool :=
  (l.iterFields.reverse).any (fun s => search s)

/-- The eight textual fields agree (colour unconstrained). -/
def textEq (a b : LogLine) : Prop :=
  a.log = b.log ∧ a.index = b.index ∧ a.date = b.date ∧ a.timestamp = b.timestamp ∧
  a.app = b.app ∧ a.severity = b.severity ∧ a.function = b.function ∧ a.payload = b.payload

end LAP

namespace LAP

theorem get_set_color (l : LogLine) (c : Option (Nat × Nat × Nat)) (k : FieldKey) :
    LogLine.get { l with color := c } k = l.get k := by
  cases k <;> rfl

theorem filter_line_loop_set_color (l : LogLine) (c : Option (Nat × Nat × Nat))
    (fs : List (FieldKey × (String → Bool))) (acc : Bool) :
    filter_line_loop { l with color := c } acc fs = filter_line_loop l acc fs := by
  induction fs generalizing acc with
  | nil => rfl
  | cons kv rest ih =>
    obtain ⟨k, re⟩ := kv
    simp only [filter_line_loop, get_set_color]
    by_cases h : re (l.get k) = true
    · simp [h, ih]
    · simp at h
      simp [h]

theorem lineMatches_set_color (f : LogFilter) (l : LogLine) (c : Option (Nat × Nat × Nat)) :
    lineMatches f { l with color := c } = lineMatches f l := by
  unfold lineMatches
  exact filter_line_loop_set_color l c f.filters false

theorem filter_line_fst (f : LogFilter) (l : LogLine) :
    (filter_line f l).1 = lineMatches f l := rfl

theorem filter_line_snd_true (f : LogFilter) (l : LogLine) (h : lineMatches f l = true) :
    (filter_line f l).2 = { l with color := f.color } := by
  simp [filter_line, h]

theorem filter_line_snd_false (f : LogFilter) (l : LogLine) (h : lineMatches f l = false) :
    (filter_line f l).2 = l := by
  simp [filter_line, h]

theorem filter_matching_set_color (ms : List LogFilter) (l : LogLine)
    (c : Option (Nat × Nat × Nat)) :
    ms.filter (fun f => lineMatches f { l with color := c }) =
      ms.filter (fun f => lineMatches f l) := by
  apply List.filter_congr
  intro f _
  rw [lineMatches_set_color]

/-- Closed form of the marker pass: the text fields are unchanged and the
final colour is the last matching marker's colour (or the incoming colour if
no marker matches). -/
theorem markerPass_spec (ms : List LogFilter) (l : LogLine) :
    markerPass ms l =
      { l with color :=
          (ms.filter (fun f => lineMatches f l)).foldl (fun _ f => f.color) l.color } := by
  induction ms generalizing l with
  | nil => rfl
  | cons f ms ih =>
    show markerPass ms (filter_line f l).2 = _
    by_cases h : lineMatches f l = true
    · rw [filter_line_snd_true f l h, ih]
      simp only [filter_matching_set_color]
      simp [List.filter_cons, h]
    · simp only [Bool.not_eq_true] at h
      rw [filter_line_snd_false f l h, ih]
      simp [List.filter_cons, h]

theorem markerPass_textEq (ms : List LogFilter) (l : LogLine) :
    textEq (markerPass ms l) l := by
  rw [markerPass_spec]
  exact ⟨rfl, rfl, rfl, rfl, rfl, rfl, rfl, rfl⟩

theorem runInclude_cons (ms : List LogFilter) (f : LogFilter) (rest : List LogFilter)
    (l : LogLine) :
    runInclude ms (f :: rest) l =
      if lineMatches f l then
        (some (markerPass ms { l with color := f.color }), { l with color := f.color })
      else runInclude ms rest l := by
  by_cases h : lineMatches f l = true
  · simp [runInclude, filter_line, h]
  · simp only [Bool.not_eq_true] at h
    simp [runInclude, filter_line, h]

theorem runExclude_cons (f : LogFilter) (rest : List LogFilter) (l : LogLine) :
    runExclude (f :: rest) l =
      if lineMatches f l then (true, { l with color := f.color })
      else runExclude rest l := by
  by_cases h : lineMatches f l = true
  · simp [runExclude, filter_line, h]
  · simp only [Bool.not_eq_true] at h
    simp [runExclude, filter_line, h]

theorem runInclude_no_match (ms : List LogFilter) (incs : List LogFilter) (l : LogLine)
    (h : ∀ f ∈ incs, lineMatches f l = false) :
    runInclude ms incs l = (none, l) := by
  induction incs with
  | nil => rfl
  | cons f rest ih =>
    have hf : lineMatches f l = false := h f (by simp)
    rw [runInclude_cons, if_neg (by simp [hf])]
    exact ih (fun g hg => h g (by simp [hg]))

theorem runInclude_some (ms : List LogFilter) (incs : List LogFilter) (l : LogLine)
    (r2 l1 : LogLine) (h : runInclude ms incs l = (some r2, l1)) :
    ∃ f, incs.find? (fun g => lineMatches g l) = some f ∧
      r2 = markerPass ms { l with color := f.color } := by
  induction incs generalizing l with
  | nil => simp [runInclude] at h
  | cons f rest ih =>
    by_cases hf : lineMatches f l = true
    · rw [runInclude_cons, if_pos hf] at h
      simp only [Prod.mk.injEq, Option.some.injEq] at h
      exact ⟨f, by simp [hf], h.1.symm⟩
    · simp only [Bool.not_eq_true] at hf
      rw [runInclude_cons, if_neg (by simp [hf])] at h
      obtain ⟨g, hg1, hg2⟩ := ih l h
      exact ⟨g, by simp [hf, hg1], hg2⟩

theorem runInclude_isSome (ms : List LogFilter) (incs : List LogFilter) (l : LogLine) :
    (runInclude ms incs l).1.isSome = true ↔ ∃ f ∈ incs, lineMatches f l = true := by
  induction incs with
  | nil => simp [runInclude]
  | cons f rest ih =>
    rw [runInclude_cons]
    by_cases h : lineMatches f l = true
    · rw [if_pos h]
      simp only [Option.isSome_some, true_iff]
      exact ⟨f, by simp, h⟩
    · simp only [Bool.not_eq_true] at h
      rw [if_neg (by simp [h]), ih]
      constructor
      · rintro ⟨g, hg, hgm⟩
        exact ⟨g, List.mem_cons_of_mem f hg, hgm⟩
      · rintro ⟨g, hg, hgm⟩
        rcases List.mem_cons.mp hg with rfl | hgr
        · exact absurd hgm (by simp [h])
        · exact ⟨g, hgr, hgm⟩

theorem runExclude_no_match (exs : List LogFilter) (l : LogLine)
    (h : ∀ f ∈ exs, lineMatches f l = false) :
    runExclude exs l = (false, l) := by
  induction exs with
  | nil => rfl
  | cons f rest ih =>
    have hf : lineMatches f l = false := h f (by simp)
    rw [runExclude_cons, if_neg (by simp [hf])]
    exact ih (fun g hg => h g (by simp [hg]))

theorem runExclude_fst_true (exs : List LogFilter) (l : LogLine)
    (h : ∃ f ∈ exs, lineMatches f l = true) :
    (runExclude exs l).1 = true := by
  induction exs with
  | nil => simp at h
  | cons f rest ih =>
    rw [runExclude_cons]
    by_cases hf : lineMatches f l = true
    · rw [if_pos hf]
    · simp only [Bool.not_eq_true] at hf
      rw [if_neg (by simp [hf])]
      obtain ⟨g, hg, hgm⟩ := h
      rcases List.mem_cons.mp hg with rfl | hgr
      · exact absurd hgm (by simp [hf])
      · exact ih ⟨g, hgr, hgm⟩

theorem mem_filter_action (F : List LogFilter) (A : FilterAction) (f : LogFilter) :
    f ∈ F.filter (fun g => g.action == A) ↔ f ∈ F ∧ f.action = A := by
  simp [List.mem_filter]

/-- The keep condition in the words of the spec (§4.3): a record is kept iff
some INCLUDE filter matches, or no INCLUDE matches, no EXCLUDE matches and
there is no INCLUDE filter at all. -/
def keepSpec (F : List LogFilter) (r : LogLine) : Prop :=
  (∃ f ∈ F, f.action = FilterAction.INCLUDE ∧ lineMatches f r = true) ∨
  ((¬ ∃ f ∈ F, f.action = FilterAction.INCLUDE ∧ lineMatches f r = true) ∧
   (¬ ∃ f ∈ F, f.action = FilterAction.EXCLUDE ∧ lineMatches f r = true) ∧
   (¬ ∃ f ∈ F, f.action = FilterAction.INCLUDE))

/-- C1: `apply_filters(F, r)` keeps the record exactly when the priority rules
say "keep" — some INCLUDE matches, or (no EXCLUDE matches and there is no
INCLUDE filter at all) — and any returned record agrees with `r` on all eight
text fields (only the colour may differ). -/
theorem apply_filters_keep_iff (F : List LogFilter) (r : LogLine) :
    ((apply_filters F r).isSome = true ↔ keepSpec F r)
    ∧ ∀ r2, apply_filters F r = some r2 → textEq r2 r := by
  rcases hri : runInclude (F.filter (fun f => f.action == FilterAction.MARKER))
      (F.filter (fun f => f.action == FilterAction.INCLUDE)) r with ⟨o, l1⟩
  cases o with
  | some r1 =>
    have happ : apply_filters F r = some r1 := by
      simp only [apply_filters]
      rw [hri]
    have hex : ∃ f ∈ F.filter (fun f => f.action == FilterAction.INCLUDE),
        lineMatches f r = true := by
      have h := runInclude_isSome (F.filter (fun f => f.action == FilterAction.MARKER))
        (F.filter (fun f => f.action == FilterAction.INCLUDE)) r
      rw [hri] at h
      exact h.mp (by simp)
    constructor
    · rw [happ]
      simp only [Option.isSome_some, true_iff]
      obtain ⟨f, hf, hm⟩ := hex
      exact Or.inl ⟨f, ((mem_filter_action F _ f).mp hf).1, ((mem_filter_action F _ f).mp hf).2, hm⟩
    · intro r2 h2
      rw [happ] at h2
      obtain ⟨f, _, heq⟩ := runInclude_some _ _ _ _ _ hri
      have hr2 : r2 = markerPass (F.filter (fun g => g.action == FilterAction.MARKER))
          { r with color := f.color } := by
        simp only [Option.some.injEq] at h2
        rw [← h2, heq]
      rw [hr2]
      exact markerPass_textEq _ _
  | none =>
    have hnomatch : ∀ f ∈ F.filter (fun f => f.action == FilterAction.INCLUDE),
        lineMatches f r = false := by
      intro f hf
      by_contra hc
      simp only [Bool.not_eq_false] at hc
      have h := (runInclude_isSome (F.filter (fun f => f.action == FilterAction.MARKER))
        (F.filter (fun f => f.action == FilterAction.INCLUDE)) r).mpr ⟨f, hf, hc⟩
      rw [hri] at h
      simp at h
    have hnoF : ¬ ∃ f ∈ F, f.action = FilterAction.INCLUDE ∧ lineMatches f r = true := by
      rintro ⟨f, hf, ha, hm⟩
      have hmem : f ∈ F.filter (fun g => g.action == FilterAction.INCLUDE) :=
        (mem_filter_action F _ f).mpr ⟨hf, ha⟩
      rw [hnomatch f hmem] at hm
      exact absurd hm (by simp)
    have hl1 : l1 = r := by
      have h2 := runInclude_no_match (F.filter (fun f => f.action == FilterAction.MARKER))
        (F.filter (fun f => f.action == FilterAction.INCLUDE)) r hnomatch
      rw [hri] at h2
      simpa using h2
    subst hl1
    by_cases hE : ∃ f ∈ F, f.action = FilterAction.EXCLUDE ∧ lineMatches f l1 = true
    · have hEf : ∃ f ∈ F.filter (fun g => g.action == FilterAction.EXCLUDE),
          lineMatches f l1 = true := by
        obtain ⟨f, hf, ha, hm⟩ := hE
        exact ⟨f, (mem_filter_action F _ f).mpr ⟨hf, ha⟩, hm⟩
      have hext := runExclude_fst_true _ l1 hEf
      rcases hre : runExclude (F.filter (fun f => f.action == FilterAction.EXCLUDE)) l1
        with ⟨b, l2⟩
      rw [hre] at hext
      simp only at hext
      subst hext
      have happ : apply_filters F l1 = none := by
        simp only [apply_filters, hri, hre]
      rw [happ]
      constructor
      · simp only [Option.isSome_none, Bool.false_eq_true, false_iff]
        rintro (h | ⟨_, hnoE, _⟩)
        · exact hnoF h
        · exact hnoE hE
      · intro r2 h2
        exact absurd h2 (by simp)
    · have hnoEf : ∀ f ∈ F.filter (fun g => g.action == FilterAction.EXCLUDE),
          lineMatches f l1 = false := by
        intro f hf
        by_contra hc
        simp only [Bool.not_eq_false] at hc
        exact hE ⟨f, ((mem_filter_action F _ f).mp hf).1, ((mem_filter_action F _ f).mp hf).2, hc⟩
      have hre := runExclude_no_match (F.filter (fun f => f.action == FilterAction.EXCLUDE))
        l1 hnoEf
      by_cases hL : (F.filter (fun f => f.action == FilterAction.INCLUDE)).length = 0
      · have happ : apply_filters F l1 =
            some (markerPass (F.filter (fun f => f.action == FilterAction.MARKER)) l1) := by
          simp only [apply_filters, hri, hre]
          rw [if_pos hL]
        rw [happ]
        constructor
        · simp only [Option.isSome_some, true_iff]
          refine Or.inr ⟨hnoF, hE, ?_⟩
          rintro ⟨f, hf, ha⟩
          have : f ∈ F.filter (fun g => g.action == FilterAction.INCLUDE) :=
            (mem_filter_action F _ f).mpr ⟨hf, ha⟩
          rw [List.length_eq_zero.mp hL] at this
          exact absurd this (by simp)
        · intro r2 h2
          simp only [Option.some.injEq] at h2
          rw [← h2]
          exact markerPass_textEq _ _
      · have happ : apply_filters F l1 = none := by
          simp only [apply_filters, hri, hre]
          rw [if_neg hL]
        rw [happ]
        constructor
        · simp only [Option.isSome_none, Bool.false_eq_true, false_iff]
          rintro (h | ⟨_, _, hnoI⟩)
          · exact hnoF h
          · obtain ⟨f, hf⟩ := List.exists_mem_of_ne_nil
              (F.filter (fun g => g.action == FilterAction.INCLUDE))
              (fun hnil => hL (by rw [hnil]; rfl))
            exact hnoI ⟨f, ((mem_filter_action F _ f).mp hf).1, ((mem_filter_action F _ f).mp hf).2⟩
        · intro r2 h2
          exact absurd h2 (by simp)

/-- The colour actually produced by `apply_filters` on a kept record: the base
colour is the first matching INCLUDE filter's colour (or the record's incoming
colour when there is no matching INCLUDE), and every matching MARKER then
overwrites it — unconditionally, with the marker's own colour field, which may
be `none`.  The last matching MARKER therefore determines the final colour. -/
def colorSpec (F : List LogFilter) (r : LogLine) : Option (Nat × Nat × Nat) :=
  ((F.filter (fun f => f.action == FilterAction.MARKER)).filter
      (fun f => lineMatches f r)).foldl (fun _ f => f.color)
    (match (F.filter (fun f => f.action == FilterAction.INCLUDE)).find?
        (fun f => lineMatches f r) with
     | some f => f.color
     | none => r.color)

/-- C6 (amended): whenever `apply_filters` keeps a record, its colour is the
filter chain's colour as computed by `colorSpec` — matching filters overwrite
the colour with their own colour field whether or not it is set, and the last
matching MARKER wins. -/
theorem apply_filters_color_spec (F : List LogFilter) (r r2 : LogLine)
    (h : apply_filters F r = some r2) : r2.color = colorSpec F r := by
  rcases hri : runInclude (F.filter (fun f => f.action == FilterAction.MARKER))
      (F.filter (fun f => f.action == FilterAction.INCLUDE)) r with ⟨o, l1⟩
  cases o with
  | some r1 =>
    have happ : apply_filters F r = some r1 := by
      simp only [apply_filters]
      rw [hri]
    rw [happ] at h
    simp only [Option.some.injEq] at h
    obtain ⟨f, hfind, heq⟩ := runInclude_some _ _ _ _ _ hri
    rw [← h, heq, markerPass_spec]
    simp only [filter_matching_set_color]
    unfold colorSpec
    rw [hfind]
  | none =>
    have hnomatch : ∀ f ∈ F.filter (fun f => f.action == FilterAction.INCLUDE),
        lineMatches f r = false := by
      intro f hf
      by_contra hc
      simp only [Bool.not_eq_false] at hc
      have hx := (runInclude_isSome (F.filter (fun f => f.action == FilterAction.MARKER))
        (F.filter (fun f => f.action == FilterAction.INCLUDE)) r).mpr ⟨f, hf, hc⟩
      rw [hri] at hx
      simp at hx
    have hl1 : l1 = r := by
      have h2 := runInclude_no_match (F.filter (fun f => f.action == FilterAction.MARKER))
        (F.filter (fun f => f.action == FilterAction.INCLUDE)) r hnomatch
      rw [hri] at h2
      simpa using h2
    subst hl1
    rcases hre : runExclude (F.filter (fun f => f.action == FilterAction.EXCLUDE)) l1
      with ⟨b, l2⟩
    cases b with
    | true =>
      have happ : apply_filters F l1 = none := by
        simp only [apply_filters, hri, hre]
      rw [happ] at h
      exact absurd h (by simp)
    | false =>
      have hl2 : l2 = l1 := by
        have hx := runExclude_no_match (F.filter (fun f => f.action == FilterAction.EXCLUDE)) l1
          (by
            intro f hf
            by_contra hc
            simp only [Bool.not_eq_false] at hc
            have := runExclude_fst_true _ l1 ⟨f, hf, hc⟩
            rw [hre] at this
            simp at this)
        rw [hre] at hx
        simpa using hx
      subst hl2
      by_cases hL : (F.filter (fun f => f.action == FilterAction.INCLUDE)).length = 0
      · have happ : apply_filters F l2 =
            some (markerPass (F.filter (fun f => f.action == FilterAction.MARKER)) l2) := by
          simp only [apply_filters, hri, hre]
          rw [if_pos hL]
        rw [happ] at h
        simp only [Option.some.injEq] at h
        rw [← h, markerPass_spec]
        unfold colorSpec
        rw [List.length_eq_zero.mp hL]
        rfl
      · have happ : apply_filters F l2 = none := by
          simp only [apply_filters, hri, hre]
          rw [if_neg hL]
        rw [happ] at h
        exact absurd h (by simp)

/-- The empty pattern compiles in the `regex` crate and matches every string. -/
theorem regexIsMatch_empty (s : String) : regexIsMatch "" s = true := by
  show listHasSub "".toList s.toList = true
  have h0 : "".toList = [] := rfl
  rw [h0]
  cases s.toList with
  | nil => rfl
  | cons c rest => simp [listHasSub, listStarts]

/-- A `Filter` whose eight field pattern strings are all empty. -/
def emptyPatternLine : LogLine :=
  ⟨"", "", "", "", "", "", "", "", none⟩

def allEmptyInclude : Filter := ⟨"all-empty-include", FilterAction.INCLUDE, emptyPatternLine⟩

def allEmptyExclude : Filter := ⟨"all-empty-exclude", FilterAction.EXCLUDE, emptyPatternLine⟩

def allEmptyMarker : Filter := ⟨"all-empty-marker", FilterAction.MARKER, emptyPatternLine⟩

/-- A compiled all-empty filter matches every record: `get_filters` keeps all
seven (empty) field patterns, and each compiled empty pattern matches any
field. -/
theorem lineMatches_allEmpty (al : String) (a : FilterAction) (r : LogLine) :
    lineMatches (LogFilter.ofFilter ⟨al, a, emptyPatternLine⟩) r = true := by
  simp [LogFilter.ofFilter, Filter.get_filters, LogLine.values, emptyPatternLine, regexNew,
    lineMatches, filter_line_loop, LogLine.get, regexIsMatch_empty]

/-- Evaluation of `apply_filters` on a single filter, by action. -/
theorem apply_filters_singleton (f : LogFilter) (r : LogLine) :
    apply_filters [f] r =
      (match f.action with
       | FilterAction.INCLUDE =>
           if lineMatches f r then some { r with color := f.color } else none
       | FilterAction.EXCLUDE => if lineMatches f r then none else some r
       | FilterAction.MARKER => some ((filter_line f r).2)) := by
  rcases f with ⟨a, fs, c⟩
  by_cases hm : lineMatches ⟨a, fs, c⟩ r = true
  · cases a <;> simp [apply_filters, runInclude, runExclude, markerPass, filter_line, hm]
  · simp only [Bool.not_eq_true] at hm
    cases a <;> simp [apply_filters, runInclude, runExclude, markerPass, filter_line, hm]

/-- C4 (amended): a filter all of whose field pattern strings are empty
matches every record — `get_filters` compiles every field pattern, empty ones
included, and the empty pattern matches every string.  So an all-empty INCLUDE
keeps every record, an all-empty EXCLUDE excludes every record, and an
all-empty MARKER matches every record and overwrites its colour (with the
filter's colour, here `none`). -/
theorem all_empty_filter_matches_all (r : LogLine) :
    apply_filters [LogFilter.ofFilter allEmptyInclude] r = some { r with color := none }
    ∧ apply_filters [LogFilter.ofFilter allEmptyExclude] r = none
    ∧ apply_filters [LogFilter.ofFilter allEmptyMarker] r = some { r with color := none } := by
  refine ⟨?_, ?_, ?_⟩
  · rw [apply_filters_singleton]
    have hm : lineMatches (LogFilter.ofFilter allEmptyInclude) r = true :=
      lineMatches_allEmpty "all-empty-include" FilterAction.INCLUDE r
    simp only [LogFilter.ofFilter, allEmptyInclude] at hm ⊢
    simp only [hm]
    rfl
  · rw [apply_filters_singleton]
    have hm : lineMatches (LogFilter.ofFilter allEmptyExclude) r = true :=
      lineMatches_allEmpty "all-empty-exclude" FilterAction.EXCLUDE r
    simp only [LogFilter.ofFilter, allEmptyExclude] at hm ⊢
    simp only [hm]
    rfl
  · rw [apply_filters_singleton]
    have hm : lineMatches (LogFilter.ofFilter allEmptyMarker) r = true :=
      lineMatches_allEmpty "all-empty-marker" FilterAction.MARKER r
    rw [filter_line_snd_true _ _ hm]
    rfl

/-- A concrete record with non-empty fields and a set colour. -/
def cRec4 : LogLine :=
  ⟨"a.log", "3", "2024-01-02", "120", "app", "INFO", "main", "hello world", some (5, 5, 5)⟩

/-- C4 counterexample: contrary to the claim, the all-empty INCLUDE keeps
`cRec4` (through the include branch), the all-empty EXCLUDE excludes it, and
the all-empty MARKER changes its colour (from `(5,5,5)` to `none`). -/
theorem all_empty_filter_matches_cex :
    apply_filters [LogFilter.ofFilter allEmptyInclude] cRec4 = some { cRec4 with color := none }
    ∧ apply_filters [LogFilter.ofFilter allEmptyExclude] cRec4 = none
    ∧ apply_filters [LogFilter.ofFilter allEmptyMarker] cRec4 = some { cRec4 with color := none }
    ∧ cRec4.color = some (5, 5, 5) := by
  refine ⟨?_, ?_, ?_, rfl⟩ <;> rfl

/-- All eight fields of a record, in `columns()` order (used to state the
search-equivalence claim over the full record). -/
def LogLine.allFields (l : LogLine) : List String :=
  [l.log, l.index, l.date, l.timestamp, l.app, l.severity, l.function, l.payload]

/-- C9 (amended): `apply_search` returns `true` exactly when the pattern
matches one of the seven fields of the reference iterator — every field except
`index` — tested payload-first (the reversed iterator order). -/
theorem apply_search_iff_fields (m : String → Bool) (l : LogLine) :
    apply_search m l = true ↔
      (m l.payload = true ∨ m l.function = true ∨ m l.severity = true ∨ m l.app = true ∨
       m l.timestamp = true ∨ m l.date = true ∨ m l.log = true) := by
  simp only [apply_search, LogLine.iterFields, List.reverse_cons, List.reverse_nil,
    List.nil_append, List.cons_append, List.any_cons, List.any_nil, Bool.or_eq_true,
    Bool.or_false]

/-- A record whose only occurrence of the search text is in its `index`
field. -/
def cRec9 : LogLine :=
  ⟨"t.log", "414243", "", "", "", "", "", "payload text", none⟩

/-- C9 counterexample: the pattern `414243` matches the `index` field of
`cRec9` — a field of the record — yet `apply_search` returns `false`, because
the `&LogLine` iterator omits `index`. -/
theorem apply_search_index_cex :
    (cRec9.allFields.any (fun s => regexIsMatch "414243" s)) = true
    ∧ apply_search (fun s => regexIsMatch "414243" s) cRec9 = false := by
  constructor
  · rfl
  · rfl

/-- A concrete INCLUDE filter (matches any record whose payload contains
`error`) with colour `(1,2,3)`. -/
def cIncErr : LogFilter :=
  ⟨FilterAction.INCLUDE, [(FieldKey.payload, fun s => regexIsMatch "error" s)], some (1, 2, 3)⟩

/-- A concrete MARKER filter matching every record, with no colour set. -/
def cMarkAll : LogFilter :=
  ⟨FilterAction.MARKER, [(FieldKey.payload, fun s => regexIsMatch "" s)], none⟩

/-- A concrete record whose payload contains `error`. -/
def cRecErr : LogLine :=
  ⟨"a.log", "0", "", "", "", "", "", "an error occurred", some (9, 9, 9)⟩

/-- Witness for C1 at a concrete filter set and record. -/
theorem apply_filters_keep_iff_witness :
    ((apply_filters [cIncErr, cMarkAll] cRecErr).isSome = true ↔ keepSpec [cIncErr, cMarkAll] cRecErr)
    ∧ ∀ r2, apply_filters [cIncErr, cMarkAll] cRecErr = some r2 → textEq r2 cRecErr :=
  apply_filters_keep_iff [cIncErr, cMarkAll] cRecErr

/-- C6 counterexample: the INCLUDE filter matches and paints the record
`(1,2,3)`; the MARKER filter also matches but has no colour set, and —
contrary to the claim — it still overwrites the colour, resetting it to
`none`.  The claim's predicted result, colour `(1,2,3)`, is not produced. -/
theorem marker_color_overwrite_cex :
    apply_filters [cIncErr, cMarkAll] cRecErr = some { cRecErr with color := none }
    ∧ ¬ apply_filters [cIncErr, cMarkAll] cRecErr = some { cRecErr with color := some (1, 2, 3) } := by
  have h1 : apply_filters [cIncErr, cMarkAll] cRecErr = some { cRecErr with color := none } := by
    rfl
  refine ⟨h1, ?_⟩
  intro hcontra
  rw [h1] at hcontra
  simp only [Option.some.injEq, LogLine.mk.injEq] at hcontra
  exact absurd hcontra.2.2.2.2.2.2.2.2 (by simp)

/-- Witness for C6 at the same concrete input: the computed colour spec there
evaluates to `none`. -/
theorem apply_filters_color_spec_witness :
    ({ cRecErr with color := none } : LogLine).color = colorSpec [cIncErr, cMarkAll] cRecErr :=
  apply_filters_color_spec [cIncErr, cMarkAll] cRecErr { cRecErr with color := none } rfl

/-- The state of `InMemmoryAnalysisStore` (`stores/analysis_store.rs`): the
filtered log, the current search query and the search log. -/
structure AnalysisState where
  log : List LogLine
  search_query : Option String
  search_log : List LogLine
deriving DecidableEq

/-- `reset_search`: clear the search log. -/
def reset_search (st : AnalysisState) : AnalysisState :=
  { st with search_log := [] }

/-- `add_search_query`: store the query. -/
def add_search_query (st : AnalysisState) (q : String) : AnalysisState :=
  { st with search_query := some q }

/-- The synchronous part of `LogService::add_search`
(`services/log_service.rs`): `ok` is the outcome of `Regex::new(pattern)`.
The search log is reset *before* the compile check; only on success is the
query stored and a search worker spawned (second component `true`). -/
def add_search (ok : Bool) (pattern : String) (st : AnalysisState) :
    AnalysisState × Bool :=
  let st1 := reset_search st
  if ok then (add_search_query st1 pattern, true) else (st1, false)

/-- `get_log_lines`: the Rust body is `log[from.min(len)..to.min(len)]`; the
slice panics (modelled by `none`) when the clamped start exceeds the clamped
end. -/
def get_log_lines (st : AnalysisState) (f t : Nat) : Option (List LogLine) :=
  if min f st.log.length ≤ min t st.log.length then
    some ((st.log.drop (min f st.log.length)).take
      (min t st.log.length - min f st.log.length))
  else none

/-- `get_search_lines`: same body as `get_log_lines`, on the search log. -/
def get_search_lines (st : AnalysisState) (f t : Nat) : Option (List LogLine) :=
  if min f st.search_log.length ≤ min t st.search_log.length then
    some ((st.search_log.drop (min f st.search_log.length)).take
      (min t st.search_log.length - min f st.search_log.length))
  else none

/-- C5 (amended): on a pattern that fails to compile, `add_search` leaves the
search query and the filtered log untouched and spawns no worker — but it
*does* clear the search log, because `reset_search` runs before the compile
check. -/
theorem add_search_invalid_clears_search (p : String) (st : AnalysisState) :
    (add_search false p st).1.search_query = st.search_query
    ∧ (add_search false p st).1.log = st.log
    ∧ (add_search false p st).1.search_log = []
    ∧ (add_search false p st).2 = false :=
  ⟨rfl, rfl, rfl, rfl⟩

/-- A concrete analysis-store state with a non-empty search log. -/
def cAState : AnalysisState :=
  ⟨[⟨"a.log", "0", "", "", "", "", "", "x", none⟩], some "x",
   [⟨"a.log", "0", "", "", "", "", "", "x", none⟩]⟩

/-- C5 counterexample: `add_search` with the non-compiling pattern `(` does
*not* leave the store as it was — the search log is cleared. -/
theorem add_search_invalid_cex :
    ¬ (add_search false "(" cAState).1 = cAState := by
  decide

/-- Characterisation of the clamped slice returned by the range queries. -/
theorem slice_clamped_spec (l : List LogLine) (f t : Nat) :
    ((l.drop (min f l.length)).take (min t l.length - min f l.length)).length
        = min t l.length - min f l.length
    ∧ ∀ i, i < min t l.length - min f l.length →
        ((l.drop (min f l.length)).take (min t l.length - min f l.length))[i]?
          = l[min f l.length + i]? := by
  constructor
  · rw [List.length_take, List.length_drop]
    omega
  · intro i hi
    rw [List.getElem?_take_of_lt hi, List.getElem?_drop]

/-- C7 (amended): when `from ≤ to`, both range queries return a copy of the
half-open slice with the bounds clamped to `[0, len)`: the result is `some`
list whose length is the clamped width and whose `i`-th element is element
`min from len + i` of the underlying log. -/
theorem get_log_lines_clamped (st : AnalysisState) (f t : Nat) (h : f ≤ t) :
    ∃ ls ss,
      get_log_lines st f t = some ls ∧ get_search_lines st f t = some ss
      ∧ ls.length = min t st.log.length - min f st.log.length
      ∧ ss.length = min t st.search_log.length - min f st.search_log.length
      ∧ (∀ i, i < ls.length → ls[i]? = st.log[min f st.log.length + i]?)
      ∧ (∀ i, i < ss.length → ss[i]? = st.search_log[min f st.search_log.length + i]?) := by
  have h1 : min f st.log.length ≤ min t st.log.length := by omega
  have h2 : min f st.search_log.length ≤ min t st.search_log.length := by omega
  refine ⟨_, _, by rw [get_log_lines, if_pos h1], by rw [get_search_lines, if_pos h2], ?_, ?_, ?_, ?_⟩
  · exact (slice_clamped_spec st.log f t).1
  · exact (slice_clamped_spec st.search_log f t).1
  · intro i hi
    exact (slice_clamped_spec st.log f t).2 i
      (by rw [(slice_clamped_spec st.log f t).1] at hi; exact hi)
  · intro i hi
    exact (slice_clamped_spec st.search_log f t).2 i
      (by rw [(slice_clamped_spec st.search_log f t).1] at hi; exact hi)

/-- C7 counterexample: with one stored record, `from = 1 > to = 0` clamps to
`1..0`, and the Rust slice `log[1..0]` panics — the queries are not total. -/
theorem get_log_lines_panic_cex :
    get_log_lines cAState 1 0 = none ∧ get_search_lines cAState 1 0 = none := by
  decide

/-- Witness for C7 at a concrete store and range. -/
theorem get_log_lines_clamped_witness :
    ∃ ls ss,
      get_log_lines cAState 0 5 = some ls ∧ get_search_lines cAState 0 5 = some ss
      ∧ ls.length = min 5 cAState.log.length - min 0 cAState.log.length
      ∧ ss.length = min 5 cAState.search_log.length - min 0 cAState.search_log.length
      ∧ (∀ i, i < ls.length → ls[i]? = cAState.log[min 0 cAState.log.length + i]?)
      ∧ (∀ i, i < ss.length → ss[i]? = cAState.search_log[min 0 cAState.search_log.length + i]?) :=
  get_log_lines_clamped cAState 0 5 (by decide)

/-- Association-list lookup, modelling `HashMap::get`. -/
def alLookup (k : String) : List (String × α) → Option α
  | [] => none
  | (k2, v) :: rest => if k2 = k then some v else alLookup k rest

/-- Association-list insert-or-replace, modelling `HashMap::insert`. -/
def alInsert (k : String) (v : α) : List (String × α) → List (String × α)
  | [] => [(k, v)]
  | (k2, v2) :: rest => if k2 = k then (k2, v) :: rest else (k2, v2) :: alInsert k v rest

/-- The state of `InMemmoryLogStore` (`stores/log_store.rs`): per-source raw
lines, format alias, enabled flag, and the set of registered source ids (the
source handles themselves carry no data relevant here). -/
structure LogStoreState where
  raw_lines : List (String × List String)
  format : List (String × String)
  enabled : List (String × Bool)
  source : List String

/-- `add_log`: registers the source handle, the enabled flag and (when given)
the format alias.  It does *not* touch `raw_lines` — the buffer is created
lazily by `add_line` / `add_lines`. -/
def add_log (st : LogStoreState) (log_id : String) (format : Option String)
    (enabled : Bool) : LogStoreState :=
  { st with
    source := if st.source.contains log_id then st.source else st.source ++ [log_id]
    enabled := alInsert log_id enabled st.enabled
    format := match format with
      | some f => alInsert log_id f st.format
      | none => st.format }

/-- `add_lines`: create the buffer on demand, append the batch, and return the
half-open index range `[previous_len, new_len)` together with the new state. -/
def add_lines (st : LogStoreState) (log_id : String) (lines : List String) :
    (Nat × Nat) × LogStoreState :=
  let rl0 := if (alLookup log_id st.raw_lines).isSome then st.raw_lines
             else alInsert log_id [] st.raw_lines
  let cur := (alLookup log_id rl0).getD []
  ((cur.length, (cur ++ lines).length),
   { st with raw_lines := alInsert log_id (cur ++ lines) rl0 })

/-- `extract_lines`: `mem::take` on `raw_lines.get_mut(log_id).unwrap()` — the
whole buffer is returned and replaced by the empty one; when no buffer exists
for `log_id` the `unwrap` panics (modelled by `none`). -/
def extract_lines (st : LogStoreState) (log_id : String) :
    Option (List String × LogStoreState) :=
  match alLookup log_id st.raw_lines with
  | none => none
  | some lines => some (lines, { st with raw_lines := alInsert log_id [] st.raw_lines })

/-- C10: `extract_lines` returns the entire buffer and leaves it empty when a
buffer exists; on a source with no buffer it panics; and `add_log` never
creates a buffer, so extracting right after registration panics. -/
theorem extract_lines_spec :
    (∀ (st : LogStoreState) (id : String) (lines : List String),
        alLookup id st.raw_lines = some lines →
          extract_lines st id =
            some (lines, { st with raw_lines := alInsert id [] st.raw_lines }))
    ∧ (∀ (st : LogStoreState) (id : String),
        alLookup id st.raw_lines = none → extract_lines st id = none)
    ∧ (∀ (st : LogStoreState) (id : String) (format : Option String) (enabled : Bool),
        (add_log st id format enabled).raw_lines = st.raw_lines) := by
  refine ⟨?_, ?_, ?_⟩
  · intro st id lines h
    rw [extract_lines, h]
  · intro st id h
    rw [extract_lines, h]
  · intro st id format enabled
    rfl

/-- The empty log store. -/
def st0 : LogStoreState := ⟨[], [], [], []⟩

/-- A store holding one line for source `a.log`. -/
def st1 : LogStoreState := ⟨[("a.log", ["one line"])], [], [], []⟩

/-- Witness for C10: registering `a.log` on an empty store and then extracting
panics (no buffer was created), while extracting from a store with a buffer
returns the whole buffer and empties it. -/
theorem extract_lines_spec_witness :
    extract_lines (add_log st0 "a.log" none true) "a.log" = none
    ∧ extract_lines st1 "a.log" =
        some (["one line"], { st1 with raw_lines := alInsert "a.log" [] st1.raw_lines }) :=
  ⟨extract_lines_spec.2.1 (add_log st0 "a.log" none true) "a.log" rfl,
   extract_lines_spec.1 st1 "a.log" ["one line"] rfl⟩

/-- The result of a format regex match: the named groups, as a partial map
from group name to matched text (`Captures::name`). -/
def NamedCaps := String → Option String

/-- A compiled format pattern, embedded by its `captures` function
(`Regex::captures`: `none` when the line does not match). -/
structure FmtRegex where
  captures : String → Option NamedCaps

/-- The closure `unwrap_or_empty_string` of `apply_format`
(`domain/apply_format.rs`): a missing named group yields `""`. -/
def unwrap_or_empty_string (caps : NamedCaps) (key : String) : String :=
  (caps key).getD ""

/-- `default_log_line` (`domain/apply_format.rs`): the whole line goes to
`payload`, `index` is the decimal ordinal, every other field takes its
`Default` value — including `log`, which stays `""` (the function receives no
source id in this file, although its caller `log_service.rs` passes one). -/
def default_log_line (line : String) (index : Nat) : LogLine :=
  { log := "", index := toString index, date := "", timestamp := "", app := "",
    severity := "", function := "", payload := line, color := none }

/-- `apply_format` (`domain/apply_format.rs`): project the first match's named
groups into the fields; on no pattern or no match fall back to
`default_log_line`.  Neither branch assigns `log`. -/
def apply_format (format : Option FmtRegex) (line : String) (index : Nat) : LogLine :=
  match format with
  | some f =>
    match f.captures line with
    | some captures =>
      { log := "", index := toString index,
        date := unwrap_or_empty_string captures "DATE",
        timestamp := unwrap_or_empty_string captures "TIMESTAMP",
        app := unwrap_or_empty_string captures "APP",
        severity := unwrap_or_empty_string captures "SEVERITY",
        function := unwrap_or_empty_string captures "FUNCTION",
        payload := unwrap_or_empty_string captures "PAYLOAD",
        color := none }
    | none => default_log_line line index
  | none => default_log_line line index

/-- A compiled pattern that matches no line (e.g. `\d` against `hello`). -/
def fmtNoMatch : FmtRegex := ⟨fun _ => none⟩

/-- C8: with an absent pattern (and likewise a non-matching one),
`apply_format` returns the whole line in `payload`, empty format fields, the
decimal ordinal in `index` — and an *empty* `log` field: the function as
written receives no source id, so `log` is never the source id `a.log`. -/
theorem apply_format_eval :
    apply_format none "hello world" 7 =
      ⟨"", "7", "", "", "", "", "", "hello world", none⟩
    ∧ apply_format (some fmtNoMatch) "hello world" 7 =
      ⟨"", "7", "", "", "", "", "", "hello world", none⟩
    ∧ (apply_format none "hello world" 7).log = ""
    ∧ ¬ (apply_format none "hello world" 7).log = "a.log" := by
  refine ⟨rfl, rfl, rfl, ?_⟩
  decide

/-- The format stage of the pipeline consumer (`LogService::new`,
`services/log_service.rs`): pair each line of the batch with its assigned
index (`lines.zip(indexes)` where `indexes = [first, first+len)`), and apply
the format per pair.  The consumer splits this list into chunks and commits
the chunk results in submission order, so the concatenated output equals this
direct map. -/
def processBatchRecords (format : Option FmtRegex) (lines : List String)
    (first : Nat) : List LogLine :=
  (lines.zip (List.range' first lines.length)).map
    (fun p => apply_format format p.1 p.2)

/-- C2 evaluation: ingesting the two-line batch into the empty store assigns
the range `[0, 2)`; the produced records carry indices `0`, `1` in order, but
their `log` field is `""`, not the source id `a.log` (the stale `apply_format`
never sets it). -/
theorem pipeline_batch_eval :
    (add_lines st0 "a.log" ["hello", "world"]).1 = (0, 2)
    ∧ (processBatchRecords none ["hello", "world"] 0).map LogLine.index = ["0", "1"]
    ∧ (processBatchRecords none ["hello", "world"] 0).map LogLine.log = ["", ""]
    ∧ ¬ (processBatchRecords none ["hello", "world"] 0).map LogLine.log = ["a.log", "a.log"] := by
  refine ⟨rfl, rfl, rfl, ?_⟩
  decide

/-- `apply_format` always writes the decimal ordinal into `index`. -/
theorem apply_format_index (format : Option FmtRegex) (line : String) (i : Nat) :
    (apply_format format line i).index = toString i := by
  cases format with
  | none => rfl
  | some fr =>
    cases h : fr.captures line with
    | none => simp [apply_format, h, default_log_line]
    | some caps => simp [apply_format, h]

/-- The records produced for a batch starting at index `L` carry exactly the
indices `L, L+1, …` in ascending order. -/
theorem processBatchRecords_indices (format : Option FmtRegex) (lines : List String)
    (L : Nat) :
    (processBatchRecords format lines L).map LogLine.index
      = (List.range' L lines.length).map (fun i => toString i) := by
  unfold processBatchRecords
  induction lines generalizing L with
  | nil => rfl
  | cons a as ih =>
    simp only [List.length_cons, List.range'_succ, List.zip_cons_cons, List.map_cons,
      apply_format_index]
    rw [ih]

/-- The index part of C2, in general: for every store, source and batch,
`add_lines` returns the contiguous range `[L, L + batch_len)` on top of the
existing buffer, and the records produced for the batch carry exactly the
indices `L, L+1, …, L + batch_len - 1` in ascending order. -/
theorem pipeline_batch_indices (st : LogStoreState) (id : String)
    (format : Option FmtRegex) (lines : List String) :
    (add_lines st id lines).1.2 = (add_lines st id lines).1.1 + lines.length
    ∧ (processBatchRecords format lines (add_lines st id lines).1.1).map LogLine.index
        = (List.range' (add_lines st id lines).1.1 lines.length).map (fun i => toString i) := by
  constructor
  · simp only [add_lines]
    rw [List.length_append]
  · exact processBatchRecords_indices format lines (add_lines st id lines).1.1

/-- `LogLineStyled` (`models/log_line_styled.rs`): each field is an ordered
list of `(optional group name, text)` spans. -/
structure LogLineStyled where
  log : List (Option String × String)
  index : List (Option String × String)
  date : List (Option String × String)
  timestamp : List (Option String × String)
  app : List (Option String × String)
  severity : List (Option String × String)
  function : List (Option String × String)
  payload : List (Option String × String)
  color : Option (Nat × Nat × Nat)
deriving DecidableEq

/-- `LogLineStyled::unformat`: concatenate the span texts of every field. -/
def LogLineStyled.unformat (l : LogLineStyled) : LogLine :=
  { log := l.log.foldl (fun acc g => acc ++ g.2) ""
    index := l.index.foldl (fun acc g => acc ++ g.2) ""
    date := l.date.foldl (fun acc g => acc ++ g.2) ""
    timestamp := l.timestamp.foldl (fun acc g => acc ++ g.2) ""
    app := l.app.foldl (fun acc g => acc ++ g.2) ""
    severity := l.severity.foldl (fun acc g => acc ++ g.2) ""
    function := l.function.foldl (fun acc g => acc ++ g.2) ""
    payload := l.payload.foldl (fun acc g => acc ++ g.2) ""
    color := l.color }

/-- A compiled search pattern as used by `format_search`
(`domain/apply_search.rs`), embedded by its capture behaviour: for a string,
either `none` (no match) or the list of named captures in `capture_names`
order, each with its group name and character span `(start, end)`.  (All
concrete strings used here are ASCII, so Rust's byte offsets coincide with
these character offsets.) -/
structure SearchRegex where
  captures : String → Option (List (String × Nat × Nat))

/-- The Rust string slice `&s[a..b]` (character-based; ASCII inputs only). -/
def strSlice (s : String) (a b : Nat) : String :=
  String.mk ((s.toList.drop a).take (b - a))

/-- The span-building loop of `format_search`: walk the captured groups from
left to right, emitting an unmatched prefix span (when non-empty) and the
captured span, threading the `offset` cursor.  Returns the spans and the final
offset. -/
def spanLoop (s : String) : Nat → List (String × Nat × Nat) →
    List (Option String × String) × Nat
  | offset, [] => ([], offset)
  | offset, (g, start, stop) :: rest =>
    let unmatched := strSlice s offset start
    let head : List (Option String × String) :=
      if unmatched.isEmpty then [] else [(none, unmatched)]
    let r := spanLoop s stop rest
    (head ++ (some g, strSlice s start stop) :: r.1, r.2)

/-- One field of `format_search`: when the pattern captures named groups,
split the field into spans; the trailing unmatched suffix is emitted only when
`offset < s.len().saturating_sub(1)` — the source's off-by-one, which drops a
suffix of exactly one character.  A match without named groups, or no match,
yields the whole field as one unnamed span. -/
def formatField (re : SearchRegex) (s : String) : List (Option String × String) :=
  match re.captures s with
  | some groups =>
    if groups.isEmpty then [(none, s)]
    else
      let r := spanLoop s 0 groups
      if r.2 < s.length - 1 then r.1 ++ [(none, strSlice s r.2 s.length)] else r.1
  | none => [(none, s)]

/-- `format_search` (`domain/apply_search.rs`): annotate every one of the
eight `columns()` fields and keep the colour. -/
def format_search (re : SearchRegex) (l : LogLine) : LogLineStyled :=
  { log := formatField re l.log
    index := formatField re l.index
    date := formatField re l.date
    timestamp := formatField re l.timestamp
    app := formatField re l.app
    severity := formatField re l.severity
    function := formatField re l.function
    payload := formatField re l.payload
    color := l.color }

/-- The pattern `(?P<G>a)`: one named group `G` capturing the first `a`. -/
def regexGa : SearchRegex :=
  ⟨fun s => (s.toList.findIdx? (fun c => c == 'a')).map (fun i => [("G", i, i + 1)])⟩

/-- A record whose payload is `ab`: the capture `a` ends one character before
the end of the field. -/
def rAB : LogLine := ⟨"t", "0", "", "", "", "", "", "ab", none⟩

/-- C3: the round trip fails on the code as written.  For the pattern
`(?P<G>a)` and the payload `ab`, the last capture ends at offset 1 = len - 1,
the tail guard `offset < len - 1` is false, and the final character `b` is
dropped: unformatting the annotated record yields payload `a`, not `ab`. -/
theorem format_search_tail_drop_eval :
    (format_search regexGa rAB).payload = [(some "G", "a")]
    ∧ (format_search regexGa rAB).unformat.payload = "a"
    ∧ rAB.payload = "ab"
    ∧ ¬ (format_search regexGa rAB).unformat = rAB := by
  refine ⟨?_, ?_, rfl, ?_⟩
  · decide
  · decide
  · decide

end LAP
